import Mathlib

/-!
Verification of the document storage engine of the mosaic-agent repository
(`app/services/storage.py`, class `AtomicJsonStorage`).

The development shallowly embeds:

* the JSON documents the store persists (`Json`, restricted to the
  integer-numeric fragment: floating-point literals are outside the model);
* the serializer used by `json.dump(data, f, indent=2, ensure_ascii=False)`
  (`encVal` / `encodeJson`);
* the parser used by `json.load` (`parseValue` / `parseJson`);
* the storage operations `read_json`, `write_json`, `update_json` over an
  explicit filesystem state (`FS`), with the lock-retry loop of
  `_file_lock` (`flockRetryAux`) driven by a contention oracle;
* a small-step concurrent model of the `_file_lock` protocol with
  inode-accurate `flock`/`unlink` semantics (`CState`, `cstep`), used to
  analyse the lock lifecycle under contention.

Python exceptions escaping the storage operations are modelled by the sum
type `PyErr`; fallible operations return `Except`.
-/

namespace MosaicStorage

/-! JSON values as persisted by the store: Python mappings/lists/strings/
ints/bools/None.  Numbers are restricted to integers (the repository's
documents hold ids, counters and strings; float literals are outside the
model).  Objects are insertion-ordered key/value lists, matching Python
dicts. -/
mutual

inductive Json where
  | null : Json
  | bool (b : Bool) : Json
  | num (n : Int) : Json
  | str (s : String) : Json
  | arr (elems : JsonList) : Json
  | obj (fields : JsonFields) : Json

inductive JsonList where
  | nil : JsonList
  | cons (hd : Json) (tl : JsonList) : JsonList

inductive JsonFields where
  | nil : JsonFields
  | cons (key : String) (val : Json) (tl : JsonFields) : JsonFields

end

/-- The empty mapping: what `read_json`/`update_json` substitute for an
absent backing file (`storage.py` lines 61-62, 81-82). -/
def emptyObj : Json := Json.obj .nil

/-! Node-count measure used to budget parser fuel. -/
mutual

def sizeJ : Json → Nat
  | .null => 1
  | .bool _ => 1
  | .num _ => 1
  | .str _ => 1
  | .arr xs => 1 + sizeL xs
  | .obj fs => 1 + sizeF fs

def sizeL : JsonList → Nat
  | .nil => 1
  | .cons h t => 1 + sizeJ h + sizeL t

def sizeF : JsonFields → Nat
  | .nil => 1
  | .cons _ v t => 1 + sizeJ v + sizeF t

end

/-! ## The serializer: `json.dump(data, f, indent=2, ensure_ascii=False)` -/

/-- Decimal digit characters, as Python prints them. -/
def digitCh : Nat → Char
  | 0 => '0' | 1 => '1' | 2 => '2' | 3 => '3' | 4 => '4'
  | 5 => '5' | 6 => '6' | 7 => '7' | 8 => '8' | _ => '9'

/-- Lowercase hex digits, as Python's `\uXXXX` escapes print them. -/
def hexCh : Nat → Char
  | 0 => '0' | 1 => '1' | 2 => '2' | 3 => '3' | 4 => '4'
  | 5 => '5' | 6 => '6' | 7 => '7' | 8 => '8' | 9 => '9'
  | 10 => 'a' | 11 => 'b' | 12 => 'c' | 13 => 'd' | 14 => 'e' | _ => 'f'

/-- Most-significant-first digit extraction by repeated division; the fuel
argument (any bound on the digit count, `m` itself suffices) keeps the
recursion structural. -/
def encNatAux : Nat → Nat → List Char
  | 0, _ => []
  | fuel + 1, m => if m = 0 then [] else encNatAux fuel (m / 10) ++ [digitCh (m % 10)]

/-- Decimal rendering of a natural number (Python `int.__repr__` for
non-negative values). -/
def encNat (m : Nat) : List Char :=
  if m = 0 then ['0'] else encNatAux m m

/-- Decimal rendering of a Python int. -/
def encInt (n : Int) : List Char :=
  if n < 0 then '-' :: encNat n.natAbs else encNat n.natAbs

/-- Python `json.encoder` string escaping with `ensure_ascii=False`: only
`"`, `\` and control characters below 0x20 are escaped (the five named
escapes, `\u00XX` otherwise); all other characters are emitted verbatim. -/
def escapeChar (c : Char) : List Char :=
  if c = '"' then ['\\', '"']
  else if c = '\\' then ['\\', '\\']
  else if c = '\x08' then ['\\', 'b']
  else if c = '\x09' then ['\\', 't']
  else if c = '\x0a' then ['\\', 'n']
  else if c = '\x0c' then ['\\', 'f']
  else if c = '\x0d' then ['\\', 'r']
  else if c.toNat < 32 then
    ['\\', 'u', '0', '0', hexCh (c.toNat / 16), hexCh (c.toNat % 16)]
  else [c]

/-- Escaped body of a JSON string literal. -/
def encStrChars : List Char → List Char
  | [] => []
  | c :: cs => escapeChar c ++ encStrChars cs

/-- A quoted JSON string literal. -/
def encStr (s : String) : List Char := '"' :: (encStrChars s.data ++ ['"'])

/-- Run of `n` spaces: the `indent=2` padding. -/
def ws (n : Nat) : List Char := List.replicate n ' '

/-! Serializer for `json.dump(…, indent=2, ensure_ascii=False)`.  `ind` is
the current indentation; containers put each element on its own line
indented two further spaces, keys are separated from values by `": "`,
elements by `","` followed by the newline-and-indent. -/
mutual

def encVal : Nat → Json → List Char
  | _, .null => ['n', 'u', 'l', 'l']
  | _, .bool true => ['t', 'r', 'u', 'e']
  | _, .bool false => ['f', 'a', 'l', 's', 'e']
  | _, .num n => encInt n
  | _, .str s => encStr s
  | _, .arr .nil => ['[', ']']
  | ind, .arr (.cons h t) =>
      '[' :: '\n' :: (ws (ind + 2) ++ (encVal (ind + 2) h ++
        (encList (ind + 2) t ++ ('\n' :: (ws ind ++ [']'])))))
  | _, .obj .nil => ['\x7b', '\x7d']
  | ind, .obj (.cons k v fs) =>
      '\x7b' :: '\n' :: (ws (ind + 2) ++ (encStr k ++ (':' :: ' ' ::
        (encVal (ind + 2) v ++ (encFields (ind + 2) fs ++
          ('\n' :: (ws ind ++ ['\x7d'])))))))

def encList : Nat → JsonList → List Char
  | _, .nil => []
  | ind, .cons h t =>
      ',' :: '\n' :: (ws ind ++ (encVal ind h ++ encList ind t))

def encFields : Nat → JsonFields → List Char
  | _, .nil => []
  | ind, .cons k v fs =>
      ',' :: '\n' :: (ws ind ++ (encStr k ++ (':' :: ' ' ::
        (encVal ind v ++ encFields ind fs))))

end

/-- The full serialized document, as `json.dump` writes it at top level. -/
def encodeJson (v : Json) : String := String.mk (encVal 0 v)

/-! ## The parser: `json.load` -/

/-- JSON whitespace, as skipped by Python's scanner. -/
def isWsChar (c : Char) : Bool := c = ' ' || c = '\t' || c = '\n' || c = '\r'

/-- Skip leading whitespace. -/
def skipWs : List Char → List Char
  | [] => []
  | c :: cs => if isWsChar c then skipWs cs else c :: cs

/-- Value of one hex digit. -/
def hexVal (c : Char) : Option Nat :=
  if c.isDigit then some (c.toNat - 48)
  else if 'a' ≤ c && c ≤ 'f' then some (c.toNat - 87)
  else if 'A' ≤ c && c ≤ 'F' then some (c.toNat - 55)
  else none

/-- The two-character escapes accepted by the scanner. -/
def unescape (e : Char) : Option Char :=
  if e = '"' then some '"'
  else if e = '\\' then some '\\'
  else if e = '/' then some '/'
  else if e = 'b' then some '\x08'
  else if e = 'f' then some '\x0c'
  else if e = 'n' then some '\x0a'
  else if e = 'r' then some '\x0d'
  else if e = 't' then some '\x09'
  else none

/-- Body of a string literal after the opening quote: literal characters
until the closing quote, backslash escapes, raw control characters
rejected (strict mode). -/
def parseStringBody : List Char → Option (List Char × List Char)
  | [] => none
  | c :: cs =>
    if c = '"' then some ([], cs)
    else if c = '\\' then
      match cs with
      | [] => none
      | e :: cs2 =>
        if e = 'u' then
          match cs2 with
          | h1 :: h2 :: h3 :: h4 :: cs3 =>
            match hexVal h1, hexVal h2, hexVal h3, hexVal h4 with
            | some a, some b, some d, some f =>
              match parseStringBody cs3 with
              | some (out, rest) =>
                  some (Char.ofNat (((a * 16 + b) * 16 + d) * 16 + f) :: out, rest)
              | none => none
            | _, _, _, _ => none
          | _ => none
        else
          match unescape e with
          | some u =>
            match parseStringBody cs2 with
            | some (out, rest) => some (u :: out, rest)
            | none => none
          | none => none
    else if c.toNat < 32 then none
    else
      match parseStringBody cs with
      | some (out, rest) => some (c :: out, rest)
      | none => none

/-- Accumulate a maximal run of decimal digits. -/
def digitsAcc (acc : Nat) : List Char → Nat × List Char
  | [] => (acc, [])
  | c :: cs =>
    if c.isDigit then digitsAcc (10 * acc + (c.toNat - 48)) cs
    else (acc, c :: cs)

/-- A non-empty run of decimal digits. -/
def parseNat : List Char → Option (Nat × List Char)
  | [] => none
  | c :: cs => if c.isDigit then some (digitsAcc (c.toNat - 48) cs) else none

/-- True when the input does not start with a decimal digit, so that a
maximal-munch number ending right before it is read back unchanged. -/
def noDigitHead : List Char → Bool
  | [] => true
  | c :: _ => !c.isDigit

/-! Recursive-descent scanner for the integer fragment of JSON, mirroring
Python's `json.scanner`.  Fuel decreases on every recursive call; `parseJson`
supplies input-length fuel, which cannot run out before the input does. -/
mutual

def parseValue : Nat → List Char → Option (Json × List Char)
  | 0, _ => none
  | fuel + 1, cs0 =>
    match skipWs cs0 with
    | 'n' :: 'u' :: 'l' :: 'l' :: rest => some (.null, rest)
    | 't' :: 'r' :: 'u' :: 'e' :: rest => some (.bool true, rest)
    | 'f' :: 'a' :: 'l' :: 's' :: 'e' :: rest => some (.bool false, rest)
    | '"' :: rest =>
      (match parseStringBody rest with
       | some (out, rest2) => some (.str (String.mk out), rest2)
       | none => none)
    | '[' :: rest =>
      (match skipWs rest with
       | ']' :: rest2 => some (.arr .nil, rest2)
       | cs1 =>
         match parseValue fuel cs1 with
         | some (v, rest2) =>
           (match parseListRest fuel rest2 with
            | some (vs, rest3) => some (.arr (.cons v vs), rest3)
            | none => none)
         | none => none)
    | '\x7b' :: rest =>
      (match skipWs rest with
       | '\x7d' :: rest2 => some (.obj .nil, rest2)
       | '"' :: rest2 =>
         (match parseStringBody rest2 with
          | some (k, rest3) =>
            (match skipWs rest3 with
             | ':' :: rest4 =>
               (match parseValue fuel rest4 with
                | some (v, rest5) =>
                  (match parseObjRest fuel rest5 with
                   | some (fs, rest6) =>
                       some (.obj (.cons (String.mk k) v fs), rest6)
                   | none => none)
                | none => none)
             | _ => none)
          | none => none)
       | _ => none)
    | '-' :: rest =>
      (match parseNat rest with
       | some (m, rest2) => some (.num (-(m : Int)), rest2)
       | none => none)
    | cs1 =>
      match parseNat cs1 with
      | some (m, rest2) => some (.num (m : Int), rest2)
      | none => none

def parseListRest : Nat → List Char → Option (JsonList × List Char)
  | 0, _ => none
  | fuel + 1, cs =>
    match skipWs cs with
    | ',' :: rest =>
      (match parseValue fuel rest with
       | some (v, rest2) =>
         (match parseListRest fuel rest2 with
          | some (vs, rest3) => some (.cons v vs, rest3)
          | none => none)
       | none => none)
    | ']' :: rest => some (.nil, rest)
    | _ => none

def parseObjRest : Nat → List Char → Option (JsonFields × List Char)
  | 0, _ => none
  | fuel + 1, cs =>
    match skipWs cs with
    | ',' :: rest =>
      (match skipWs rest with
       | '"' :: rest2 =>
         (match parseStringBody rest2 with
          | some (k, rest3) =>
            (match skipWs rest3 with
             | ':' :: rest4 =>
               (match parseValue fuel rest4 with
                | some (v, rest5) =>
                  (match parseObjRest fuel rest5 with
                   | some (fs, rest6) => some (.cons (String.mk k) v fs, rest6)
                   | none => none)
                | none => none)
             | _ => none)
          | none => none)
       | _ => none)
    | '\x7d' :: rest => some (.nil, rest)
    | _ => none

end

/-- `json.load`: parse one JSON value, insist nothing but whitespace
follows.  The error strings describe the parse failure as Python's
`JSONDecodeError` messages do. -/
def parseJson (s : String) : Except String Json :=
  match parseValue (s.data.length + 1) s.data with
  | some (v, rest) =>
      if (skipWs rest).isEmpty then .ok v else .error "Extra data"
  | none => .error "Expecting value"

deriving instance DecidableEq for Json

/-! ## Filesystem state and the storage operations

`AtomicJsonStorage` keeps one data file per document name under its data
directory, plus a sibling `<name>.lock` sentinel during critical sections.
The filesystem is modelled per storage root: text contents of the data
files and existence of the lock sentinels. -/

/-- The storage root: data-file contents (`none` = file absent) and lock
sentinel existence, both keyed by document name. -/
structure FS where
  docs : String → Option String
  locks : String → Bool

/-- Write the full new content of a data file (`open(file_path, 'w')`
followed by `json.dump`: truncating write, complete replacement). -/
def setDoc (s : FS) (n : String) (text : String) : FS :=
  { s with docs := fun m => if m = n then some text else s.docs m }

/-- Create (or truncate) the lock sentinel: `open(lock_path, 'w')`. -/
def setLock (s : FS) (n : String) : FS :=
  { s with locks := fun m => if m = n then true else s.locks m }

/-- `os.remove(lock_path)` wrapped in `try/except OSError: pass`
(storage.py lines 51-54): deletes the sentinel when present, silently does
nothing when it is already absent. -/
def removeLockFile (s : FS) (n : String) : FS :=
  if s.locks n then { s with locks := fun m => if m = n then false else s.locks m }
  else s

/-- Python exceptions that can escape the storage operations:
`IOError` from the exhausted lock-retry loop (line 42), `json.JSONDecodeError`
from `json.load` (lines 65, 85), and an arbitrary exception `ε` raised by a
caller-supplied `update_func` (line 88). -/
inductive PyErr (ε : Type) where
  | ioError (msg : String)
  | jsonDecodeError (msg : String)
  | transformExc (e : ε)

deriving instance DecidableEq for PyErr

instance {ε α : Type} [DecidableEq ε] [DecidableEq α] : DecidableEq (Except ε α) := fun a b =>
  match a, b with
  | .ok x, .ok y =>
      if h : x = y then .isTrue (by rw [h]) else .isFalse (by intro hh; cases hh; exact h rfl)
  | .error x, .error y =>
      if h : x = y then .isTrue (by rw [h]) else .isFalse (by intro hh; cases hh; exact h rfl)
  | .ok _, .error _ => .isFalse (by intro hh; cases hh)
  | .error _, .ok _ => .isFalse (by intro hh; cases hh)

/-- The retry loop of `_file_lock` (lines 32-42): `retry_count` starts at 0;
while `retry_count < 10`, a non-blocking `flock` is attempted — success
breaks out, failure increments the counter and sleeps 0.1s.  The contention
oracle `c` says whether the attempt numbered `rc` fails (the lock is held
elsewhere at that moment).  The fuel is `10 - retry_count`; the result is
the index of the successful attempt, or `none` after ten failures. -/
def flockRetryAux (c : Nat → Bool) : Nat → Nat → Option Nat
  | _, 0 => none
  | rc, fuel + 1 => if c rc then flockRetryAux c (rc + 1) fuel else some rc

/-- The whole retry loop from `retry_count = 0` with the source's bound of
ten attempts. -/
def flockRetry (c : Nat → Bool) : Option Nat := flockRetryAux c 0 10

/-- Number of failed `flock` attempts (each one is followed by
`time.sleep(0.1)`). -/
def failedAttempts (c : Nat → Bool) : Nat :=
  match flockRetry c with
  | some k => k
  | none => 10

/-- Number of `flock` attempts made in total. -/
def attemptsMade (c : Nat → Bool) : Nat :=
  match flockRetry c with
  | some k => k + 1
  | none => 10

/-- `time.sleep(0.1)`: one hundred milliseconds per failed attempt
(line 40). -/
def sleepMs : Nat := 100

/-- Total time spent sleeping in the retry loop, in milliseconds. -/
def totalSleepMs (c : Nat → Bool) : Nat := sleepMs * failedAttempts c

/-- The contention oracle of an uncontended run: every `flock` attempt
succeeds immediately. -/
def noContention : Nat → Bool := fun _ => false

/-- The `_file_lock` context manager (lines 24-54) around a critical-section
body.  `open(lock_path, 'w')` creates the sentinel; the retry loop either
acquires the `flock` and runs the body, or raises
`IOError("Could not acquire file lock")`.  The `finally` block always runs:
`flock(LOCK_UN)` and `close` (no effect on the modelled state), then
`os.remove(lock_path)` with `OSError` ignored.  The final filesystem state
is returned alongside the result on every exit path. -/
def withFileLock {α ε : Type} (c : Nat → Bool) (n : String)
    (body : FS → Except (PyErr ε) α × FS) (s : FS) : Except (PyErr ε) α × FS :=
  let s1 := setLock s n
  match flockRetry c with
  | some _ =>
      let r := body s1
      (r.1, removeLockFile r.2 n)
  | none => (.error (.ioError "Could not acquire file lock"), removeLockFile s1 n)

/-- Loading the current document inside a critical section (lines 61-65 and
81-85): an absent file yields the empty mapping, otherwise the file's text
is parsed by `json.load`, whose failure escapes as `JSONDecodeError`. -/
def loadCurrent {ε : Type} (s : FS) (n : String) : Except (PyErr ε) Json :=
  match s.docs n with
  | none => .ok emptyObj
  | some text =>
    match parseJson text with
    | .ok v => .ok v
    | .error m => .error (.jsonDecodeError m)

/-- `read_json` (lines 56-65): under the file lock, return the empty
mapping if the data file is absent, else parse its contents. -/
def read_json {ε : Type} (c : Nat → Bool) (n : String) (s : FS) :
    Except (PyErr ε) Json × FS :=
  withFileLock c n (fun s1 => (loadCurrent s1 n, s1)) s

/-- `write_json` (lines 67-73): under the file lock, serialize `data` and
write it as the file's full content. -/
def write_json {ε : Type} (c : Nat → Bool) (n : String) (data : Json) (s : FS) :
    Except (PyErr ε) Unit × FS :=
  withFileLock c n (fun s1 => (.ok (), setDoc s1 n (encodeJson data))) s

/-- `update_json` (lines 75-94): under the file lock, load the current
data (empty mapping if the file is absent), apply `update_func` once,
write the result back, and return it.  The caller-supplied Python callable
may close over mutable state, so it is modelled with an explicit closure
state `σ` threaded through the call: it either returns the new document and
its new closure state, or raises `ε`. -/
def update_json {σ ε : Type} (c : Nat → Bool) (n : String)
    (update_func : σ → Json → Except ε (Json × σ)) (st : σ) (s : FS) :
    Except (PyErr ε) (Json × σ) × FS :=
  withFileLock c n (fun s1 =>
    match loadCurrent s1 n with
    | .error e => (.error e, s1)
    | .ok data =>
      match update_func st data with
      | .error e => (.error (.transformExc e), s1)
      | .ok (updated, st2) => (.ok (updated, st2), setDoc s1 n (encodeJson updated))) s

/-! ## Concurrent model of the `_file_lock` protocol

`flock` is advisory and attached to the *inode* of the open file, while
`os.remove` unlinks the *path*.  The model tracks which inode the lock path
currently names (`pathInode`, `none` when the path does not exist), which
thread holds the `flock` of each inode (`holder`), and each thread's
position in the protocol of `_file_lock` (`phase`).  All threads contend
for one document name. -/

/-- A thread's position in the `_file_lock` protocol. -/
inductive TPhase where
  | start
  | looping (fd : Nat) (rc : Nat)
  | inCrit (fd : Nat)
  | done
  | timedOut

deriving instance DecidableEq for TPhase

/-- Global state of the concurrent lock protocol. -/
structure CState where
  pathInode : Option Nat
  nextInode : Nat
  holder : Nat → Option Nat
  phase : Nat → TPhase

/-- Pointwise function update. -/
def updFn {β : Type} (f : Nat → β) (k : Nat) (v : β) : Nat → β :=
  fun x => if x = k then v else f x

/-- One atomic step of thread `tid` in the `_file_lock` protocol:

* `start`: `open(lock_path, 'w')` — binds the existing inode if the path
  exists, else creates a fresh inode and binds the path to it (line 30);
* `looping fd rc`: one non-blocking `flock` attempt on the opened inode
  (line 36) — success enters the critical section; failure retries while
  `retry_count < 10`, and on the tenth failure runs the `finally` cleanup
  (lines 44-54), which unlinks whatever inode the lock path currently
  names, then raises;
* `inCrit fd`: the critical section finishes — the `finally` cleanup
  releases the `flock` and unlinks the lock path (lines 44-54). -/
def cstep (s : CState) (tid : Nat) : CState :=
  match s.phase tid with
  | .start =>
    (match s.pathInode with
     | some i => { s with phase := updFn s.phase tid (.looping i 0) }
     | none =>
       { s with pathInode := some s.nextInode
                nextInode := s.nextInode + 1
                phase := updFn s.phase tid (.looping s.nextInode 0) })
  | .looping fd rc =>
    (match s.holder fd with
     | none =>
       { s with holder := updFn s.holder fd (some tid)
                phase := updFn s.phase tid (.inCrit fd) }
     | some t' =>
       if t' = tid then
         { s with phase := updFn s.phase tid (.inCrit fd) }
       else if rc + 1 < 10 then
         { s with phase := updFn s.phase tid (.looping fd (rc + 1)) }
       else
         { s with pathInode := none
                  phase := updFn s.phase tid .timedOut })
  | .inCrit fd =>
    { s with holder := if s.holder fd = some tid then updFn s.holder fd none else s.holder
             pathInode := none
             phase := updFn s.phase tid .done }
  | .done => s
  | .timedOut => s

/-- Initial state: no lock path, no flocks, all threads before `open`. -/
def cinit : CState :=
  { pathInode := none, nextInode := 0, holder := fun _ => none, phase := fun _ => .start }

/-- Run a schedule (a sequence of thread ids, each taking one step). -/
def crun (sched : List Nat) : CState := sched.foldl cstep cinit

/-! ## Round trip of the codec: `json.load` inverts `json.dump`

The proof walks the serializer's output through the scanner: whitespace
lemmas, the string-escape round trip, the decimal round trip, and finally a
strong induction on parser fuel covering values, array tails and object
tails simultaneously. -/

theorem skipWs_cons_of_not {c : Char} (cs : List Char) (h : isWsChar c = false) :
    skipWs (c :: cs) = c :: cs := by
  simp [skipWs, h]

theorem skipWs_ws_append (n : Nat) (cs : List Char) :
    skipWs (ws n ++ cs) = skipWs cs := by
  induction n with
  | zero => simp [ws]
  | succ k ih => simpa [ws, List.replicate_succ, skipWs, isWsChar] using ih

theorem skipWs_nl (cs : List Char) : skipWs ('\n' :: cs) = skipWs cs := by
  simp [skipWs, isWsChar]

theorem hexVal_hexCh {m : Nat} (h : m < 16) : hexVal (hexCh m) = some m := by
  interval_cases m <;> decide

theorem parseStringBody_escape (c : Char) (t : List Char) :
    parseStringBody (escapeChar c ++ t) =
      (parseStringBody t).map (fun p => (c :: p.1, p.2)) := by
  by_cases h1 : c = '"'
  · subst h1
    show parseStringBody ('\\' :: '"' :: t) = _
    rw [parseStringBody.eq_def]
    simp +decide [unescape]
    cases parseStringBody t <;> simp
  · by_cases h2 : c = '\\'
    · subst h2
      show parseStringBody ('\\' :: '\\' :: t) = _
      rw [parseStringBody.eq_def]
      simp +decide [unescape]
      cases parseStringBody t <;> simp
    · by_cases h3 : c = '\x08'
      · subst h3
        show parseStringBody ('\\' :: 'b' :: t) = _
        rw [parseStringBody.eq_def]
        simp +decide [unescape]
        cases parseStringBody t <;> simp
      · by_cases h4 : c = '\x09'
        · subst h4
          show parseStringBody ('\\' :: 't' :: t) = _
          rw [parseStringBody.eq_def]
          simp +decide [unescape]
          cases parseStringBody t <;> simp
        · by_cases h5 : c = '\x0a'
          · subst h5
            show parseStringBody ('\\' :: 'n' :: t) = _
            rw [parseStringBody.eq_def]
            simp +decide [unescape]
            cases parseStringBody t <;> simp
          · by_cases h6 : c = '\x0c'
            · subst h6
              show parseStringBody ('\\' :: 'f' :: t) = _
              rw [parseStringBody.eq_def]
              simp +decide [unescape]
              cases parseStringBody t <;> simp
            · by_cases h7 : c = '\x0d'
              · subst h7
                show parseStringBody ('\\' :: 'r' :: t) = _
                rw [parseStringBody.eq_def]
                simp +decide [unescape]
                cases parseStringBody t <;> simp
              · by_cases h8 : c.toNat < 32
                · have hdiv : c.toNat / 16 < 16 := by omega
                  have hmod : c.toNat % 16 < 16 := by omega
                  simp only [escapeChar, h1, h2, h3, h4, h5, h6, h7, h8,
                    if_false, if_true, ite_true, ite_false, if_pos, if_neg,
                    List.cons_append, List.nil_append]
                  rw [parseStringBody.eq_def]
                  have h0 : hexVal '0' = some 0 := by decide
                  simp +decide [h0, hexVal_hexCh hdiv, hexVal_hexCh hmod]
                  have hval : c.toNat / 16 * 16 + c.toNat % 16 = c.toNat := by omega
                  rw [hval, Char.ofNat_toNat]
                  cases parseStringBody t <;> simp
                · simp only [escapeChar, h1, h2, h3, h4, h5, h6, h7, h8,
                    if_false, List.cons_append, List.nil_append]
                  rw [parseStringBody.eq_def]
                  simp [h1, h2, h8]
                  cases parseStringBody t <;> simp

theorem parseStringBody_enc (cs t : List Char) :
    parseStringBody (encStrChars cs ++ '"' :: t) = some (cs, t) := by
  induction cs with
  | nil =>
      show parseStringBody ('"' :: t) = _
      rw [parseStringBody.eq_def]
      simp
  | cons c cs ih =>
      simp [encStrChars, List.append_assoc, parseStringBody_escape, ih]

theorem digitCh_isDigit {d : Nat} (h : d < 10) : (digitCh d).isDigit = true := by
  interval_cases d <;> decide

theorem digitCh_toNat {d : Nat} (h : d < 10) : (digitCh d).toNat = 48 + d := by
  interval_cases d <;> decide

theorem digitsAcc_stop (acc : Nat) (t : List Char) (ht : noDigitHead t = true) :
    digitsAcc acc t = (acc, t) := by
  cases t with
  | nil => rfl
  | cons c cs =>
      have hc : c.isDigit = false := by simpa [noDigitHead] using ht
      simp [digitsAcc, hc]

theorem digitsAcc_append (ds : List Nat) :
    ∀ (acc : Nat) (t : List Char), (∀ d ∈ ds, d < 10) → noDigitHead t = true →
      digitsAcc acc (ds.map digitCh ++ t) =
        (ds.foldl (fun a d => 10 * a + d) acc, t) := by
  induction ds with
  | nil =>
      intro acc t _ ht
      simpa using digitsAcc_stop acc t ht
  | cons d ds ih =>
      intro acc t hds ht
      have hd10 : d < 10 := hds d (by simp)
      have hrec := ih (10 * acc + d) t (fun x hx => hds x (by simp [hx])) ht
      simp only [List.map_cons, List.cons_append, digitsAcc,
        digitCh_isDigit hd10, digitCh_toNat hd10, if_true, List.foldl_cons]
      have h48 : 48 + d - 48 = d := by omega
      rw [h48]
      simpa using hrec

theorem encNatAux_eq : ∀ (fuel m : Nat), m ≤ fuel →
    encNatAux fuel m = (Nat.digits 10 m).reverse.map digitCh := by
  intro fuel
  induction fuel with
  | zero =>
      intro m hm
      interval_cases m
      simp [encNatAux]
  | succ f ih =>
      intro m hm
      by_cases h0 : m = 0
      · subst h0; simp [encNatAux]
      · have hdiv : m / 10 ≤ f := by omega
        rw [encNatAux, if_neg h0, ih (m / 10) hdiv,
          Nat.digits_def' (by norm_num : (1 : Nat) < 10) (Nat.pos_of_ne_zero h0)]
        simp

theorem foldl_reverse_digits (L : List Nat) :
    ∀ acc : Nat, L.reverse.foldl (fun a d => 10 * a + d) acc
      = acc * 10 ^ L.length + Nat.ofDigits 10 L := by
  induction L with
  | nil => intro acc; simp [Nat.ofDigits]
  | cons x L ih =>
      intro acc
      simp only [List.reverse_cons, List.foldl_append, List.foldl_cons,
        List.foldl_nil, ih acc, List.length_cons, Nat.ofDigits_cons]
      ring

theorem encNat_elem_lt (m : Nat) :
    ∀ d ∈ (Nat.digits 10 m).reverse, d < 10 := by
  intro d hd
  exact Nat.digits_lt_base (by norm_num) (List.mem_reverse.1 hd)

theorem parseNat_enc (m : Nat) (t : List Char) (ht : noDigitHead t = true) :
    parseNat (encNat m ++ t) = some (m, t) := by
  by_cases h0 : m = 0
  · subst h0
    show parseNat ('0' :: t) = _
    rw [parseNat.eq_def]
    simp +decide [digitsAcc_stop 0 t ht]
  · have henc : encNat m = (Nat.digits 10 m).reverse.map digitCh := by
      rw [encNat, if_neg h0]
      exact encNatAux_eq m m le_rfl
    have hne : (Nat.digits 10 m).reverse ≠ [] := by
      simp [Nat.digits_ne_nil_iff_ne_zero, h0]
    obtain ⟨d, ds, hL⟩ := List.exists_cons_of_ne_nil hne
    have hlt : ∀ x ∈ (Nat.digits 10 m).reverse, x < 10 := encNat_elem_lt m
    have hd10 : d < 10 := hlt d (by rw [hL]; simp)
    have hds : ∀ x ∈ ds, x < 10 := fun x hx => hlt x (by rw [hL]; simp [hx])
    have hval : ds.foldl (fun a x => 10 * a + x) d = m := by
      have h1 : (d :: ds).foldl (fun a x => 10 * a + x) 0 = m := by
        rw [← hL, foldl_reverse_digits]
        simp [Nat.ofDigits_digits]
      simpa using h1
    rw [henc, hL]
    simp only [List.map_cons, List.cons_append]
    rw [parseNat.eq_def]
    simp only [digitCh_isDigit hd10, digitCh_toNat hd10, if_true]
    have h48 : 48 + d - 48 = d := by omega
    rw [h48, digitsAcc_append ds d t hds ht, hval]

theorem encNat_head (m : Nat) : ∃ d rest, encNat m = digitCh d :: rest ∧ d < 10 := by
  by_cases h0 : m = 0
  · exact ⟨0, [], by subst h0; rfl, by norm_num⟩
  · have henc : encNat m = (Nat.digits 10 m).reverse.map digitCh := by
      rw [encNat, if_neg h0]
      exact encNatAux_eq m m le_rfl
    have hne : (Nat.digits 10 m).reverse ≠ [] := by
      simp [Nat.digits_ne_nil_iff_ne_zero, h0]
    obtain ⟨d, ds, hL⟩ := List.exists_cons_of_ne_nil hne
    refine ⟨d, ds.map digitCh, ?_, ?_⟩
    · rw [henc, hL]; simp
    · exact encNat_elem_lt m d (by rw [hL]; simp)

theorem isWsChar_digitCh {d : Nat} (h : d < 10) : isWsChar (digitCh d) = false := by
  interval_cases d <;> decide

theorem digitCh_ne_rbrack {d : Nat} (h : d < 10) : digitCh d ≠ ']' := by
  interval_cases d <;> decide

theorem String_mk_data (s : String) : String.mk s.data = s := by
  cases s
  rfl

theorem skipWs_space (cs : List Char) : skipWs (' ' :: cs) = skipWs cs := by
  simp [skipWs, isWsChar]

theorem encVal_head (ind : Nat) (v : Json) :
    ∃ c cs, encVal ind v = c :: cs ∧ isWsChar c = false ∧ c ≠ ']' := by
  cases v with
  | null => exact ⟨'n', ['u', 'l', 'l'], rfl, by decide, by decide⟩
  | bool b =>
      cases b
      · exact ⟨'f', ['a', 'l', 's', 'e'], rfl, by decide, by decide⟩
      · exact ⟨'t', ['r', 'u', 'e'], rfl, by decide, by decide⟩
  | num n =>
      by_cases hn : n < 0
      · exact ⟨'-', encNat n.natAbs, by simp [encVal, encInt, hn], by decide, by decide⟩
      · obtain ⟨d, rest, hD, hd10⟩ := encNat_head n.natAbs
        exact ⟨digitCh d, rest, by simp [encVal, encInt, hn, hD],
          isWsChar_digitCh hd10, digitCh_ne_rbrack hd10⟩
  | str s => exact ⟨'"', encStrChars s.data ++ ['"'], rfl, by decide, by decide⟩
  | arr l =>
      cases l
      · exact ⟨'[', [']'], rfl, by decide, by decide⟩
      · exact ⟨'[', _, rfl, by decide, by decide⟩
  | obj fs =>
      cases fs
      · exact ⟨'\x7b', ['\x7d'], rfl, by decide, by decide⟩
      · exact ⟨'\x7b', _, rfl, by decide, by decide⟩

theorem noDigitHead_encList (i : Nat) (l : JsonList) (X : List Char) :
    noDigitHead (encList i l ++ '\n' :: X) = true := by
  cases l <;> simp +decide [encList, noDigitHead]

theorem noDigitHead_encFields (i : Nat) (fs : JsonFields) (X : List Char) :
    noDigitHead (encFields i fs ++ '\n' :: X) = true := by
  cases fs <;> simp +decide [encFields, noDigitHead]

theorem parseValue_congr (f : Nat) (a b : List Char) (h : skipWs a = skipWs b) :
    parseValue (f + 1) a = parseValue (f + 1) b := by
  rw [parseValue.eq_def]
  conv_rhs => rw [parseValue.eq_def]
  simp only [h]

theorem parseListRest_congr (f : Nat) (a b : List Char) (h : skipWs a = skipWs b) :
    parseListRest (f + 1) a = parseListRest (f + 1) b := by
  rw [parseListRest.eq_def]
  conv_rhs => rw [parseListRest.eq_def]
  simp only [h]

theorem parseObjRest_congr (f : Nat) (a b : List Char) (h : skipWs a = skipWs b) :
    parseObjRest (f + 1) a = parseObjRest (f + 1) b := by
  rw [parseObjRest.eq_def]
  conv_rhs => rw [parseObjRest.eq_def]
  simp only [h]

theorem parseValue_lbrack (f : Nat) (rest : List Char) :
    parseValue (f + 1) ('[' :: rest) =
      match skipWs rest with
      | ']' :: rest2 => some (.arr .nil, rest2)
      | cs1 =>
        match parseValue f cs1 with
        | some (v, rest2) =>
          (match parseListRest f rest2 with
           | some (vs, rest3) => some (.arr (.cons v vs), rest3)
           | none => none)
        | none => none := by
  rw [parseValue.eq_def]
  simp +decide [skipWs, isWsChar]

theorem parseValue_lbrace (f : Nat) (rest : List Char) :
    parseValue (f + 1) ('\x7b' :: rest) =
      match skipWs rest with
      | '\x7d' :: rest2 => some (.obj .nil, rest2)
      | '"' :: rest2 =>
        (match parseStringBody rest2 with
         | some (k, rest3) =>
           (match skipWs rest3 with
            | ':' :: rest4 =>
              (match parseValue f rest4 with
               | some (v, rest5) =>
                 (match parseObjRest f rest5 with
                  | some (fs, rest6) => some (.obj (.cons (String.mk k) v fs), rest6)
                  | none => none)
               | none => none)
            | _ => none)
         | none => none)
      | _ => none := by
  rw [parseValue.eq_def]
  simp +decide [skipWs, isWsChar]

theorem parseListRest_comma (f : Nat) (rest : List Char) :
    parseListRest (f + 1) (',' :: rest) =
      match parseValue f rest with
      | some (v, rest2) =>
        (match parseListRest f rest2 with
         | some (vs, rest3) => some (.cons v vs, rest3)
         | none => none)
      | none => none := by
  rw [parseListRest.eq_def]
  simp +decide [skipWs, isWsChar]

theorem parseListRest_rbrack (f : Nat) (rest : List Char) :
    parseListRest (f + 1) (']' :: rest) = some (.nil, rest) := by
  rw [parseListRest.eq_def]
  simp +decide [skipWs, isWsChar]

theorem parseObjRest_comma (f : Nat) (rest : List Char) :
    parseObjRest (f + 1) (',' :: rest) =
      match skipWs rest with
      | '"' :: rest2 =>
        (match parseStringBody rest2 with
         | some (k, rest3) =>
           (match skipWs rest3 with
            | ':' :: rest4 =>
              (match parseValue f rest4 with
               | some (v, rest5) =>
                 (match parseObjRest f rest5 with
                  | some (fs, rest6) => some (.cons (String.mk k) v fs, rest6)
                  | none => none)
               | none => none)
            | _ => none)
         | none => none)
      | _ => none := by
  rw [parseObjRest.eq_def]
  simp +decide [skipWs, isWsChar]

theorem parseObjRest_rbrace (f : Nat) (rest : List Char) :
    parseObjRest (f + 1) ('\x7d' :: rest) = some (.nil, rest) := by
  rw [parseObjRest.eq_def]
  simp +decide [skipWs, isWsChar]

theorem sizeJ_pos (v : Json) : 1 ≤ sizeJ v := by
  cases v <;> simp [sizeJ]

theorem sizeL_pos (l : JsonList) : 1 ≤ sizeL l := by
  cases l with
  | nil => simp [sizeL]
  | cons h t => simp [sizeL]; omega

theorem sizeF_pos (fs : JsonFields) : 1 ≤ sizeF fs := by
  cases fs with
  | nil => simp [sizeF]
  | cons k v t => simp [sizeF]; omega

theorem parse_enc_all : ∀ fuel : Nat,
    (∀ (v : Json) (ind : Nat) (t : List Char), sizeJ v ≤ fuel → noDigitHead t = true →
        parseValue fuel (encVal ind v ++ t) = some (v, t)) ∧
    (∀ (l : JsonList) (ind2 ind0 : Nat) (t : List Char), sizeL l ≤ fuel →
        parseListRest fuel (encList ind2 l ++ '\n' :: (ws ind0 ++ ']' :: t))
          = some (l, t)) ∧
    (∀ (fs : JsonFields) (ind2 ind0 : Nat) (t : List Char), sizeF fs ≤ fuel →
        parseObjRest fuel (encFields ind2 fs ++ '\n' :: (ws ind0 ++ '\x7d' :: t))
          = some (fs, t)) := by
  intro fuel
  induction fuel using Nat.strong_induction_on with
  | _ fuel IH =>
  cases fuel with
  | zero =>
      refine ⟨?_, ?_, ?_⟩
      · intro v _ _ hs _
        exact absurd hs (by have := sizeJ_pos v; omega)
      · intro l _ _ _ hs
        exact absurd hs (by have := sizeL_pos l; omega)
      · intro fs _ _ _ hs
        exact absurd hs (by have := sizeF_pos fs; omega)
  | succ f =>
  obtain ⟨IHv, IHl, IHf⟩ := IH f (Nat.lt_succ_self f)
  refine ⟨?_, ?_, ?_⟩
  · intro v ind t hs ht
    cases v with
    | null =>
        rw [parseValue.eq_def]
        simp +decide [encVal, skipWs, isWsChar]
    | bool b =>
        cases b <;>
          (rw [parseValue.eq_def]; simp +decide [encVal, skipWs, isWsChar])
    | num n =>
        by_cases hn : n < 0
        · have henc : encVal ind (.num n) = '-' :: encNat n.natAbs := by
            simp [encVal, encInt, hn]
          have hpn : parseNat (encNat n.natAbs ++ t) = some (n.natAbs, t) :=
            parseNat_enc n.natAbs t ht
          have hneg : -((n.natAbs : Int)) = n := by omega
          have hneg' : -|n| = n := by rw [abs_of_neg hn, neg_neg]
          rw [henc]
          rw [parseValue.eq_def]
          simp +decide [skipWs, isWsChar, hpn, hneg, hneg']
        · obtain ⟨d, r0, hD, hd10⟩ := encNat_head n.natAbs
          have henc : encVal ind (.num n) = encNat n.natAbs := by
            simp [encVal, encInt, hn]
          have hpn : parseNat (encNat n.natAbs ++ t) = some (n.natAbs, t) :=
            parseNat_enc n.natAbs t ht
          have hcast : ((n.natAbs : Int)) = n := Int.natAbs_of_nonneg (not_lt.1 hn)
          rw [hD] at hpn
          rw [henc, hD]
          simp only [List.cons_append] at hpn ⊢
          interval_cases d <;>
            (rw [parseValue.eq_def]; simp +decide [skipWs, isWsChar, hpn, hcast])
    | str s =>
        rw [parseValue.eq_def]
        simp +decide [encVal, encStr, List.append_assoc, skipWs, isWsChar,
          parseStringBody_enc, String_mk_data]
    | arr l =>
        cases l with
        | nil =>
            rw [parseValue.eq_def]
            simp +decide [encVal, skipWs, isWsChar]
        | cons h tl =>
            obtain ⟨c, cs, hEn, hws, hnb⟩ := encVal_head (ind + 2) h
            have hszh : sizeJ h ≤ f := by
              simp [sizeJ, sizeL] at hs
              have := sizeL_pos tl
              omega
            have hszl : sizeL tl ≤ f := by
              simp [sizeJ, sizeL] at hs
              have := sizeJ_pos h
              omega
            have hnd : noDigitHead (encList (ind + 2) tl ++
                '\n' :: (ws ind ++ ']' :: t)) = true := noDigitHead_encList _ _ _
            have hv := IHv h (ind + 2)
              (encList (ind + 2) tl ++ '\n' :: (ws ind ++ ']' :: t)) hszh hnd
            have hl := IHl tl (ind + 2) ind t hszl
            simp only [encVal, List.cons_append, List.append_assoc, List.nil_append]
            rw [parseValue_lbrack]
            rw [skipWs_nl, skipWs_ws_append, hEn, List.cons_append,
              skipWs_cons_of_not _ hws]
            rw [← List.cons_append, ← hEn]
            split
            · rename_i heq
              rw [hEn] at heq
              simp only [List.cons_append] at heq
              injection heq with hc _
              exact absurd hc hnb
            · simp only [hv, hl]
    | obj fs =>
        cases fs with
        | nil =>
            rw [parseValue.eq_def]
            simp +decide [encVal, skipWs, isWsChar]
        | cons k v fs =>
            have hszv : sizeJ v ≤ f := by
              simp [sizeJ, sizeF] at hs
              have := sizeF_pos fs
              omega
            have hszf : sizeF fs ≤ f := by
              simp [sizeJ, sizeF] at hs
              have := sizeJ_pos v
              omega
            have hf1 : 1 ≤ f := by
              have := sizeJ_pos v
              have := sizeF_pos fs
              simp [sizeJ, sizeF] at hs
              omega
            obtain ⟨g, hg⟩ : ∃ g, f = g + 1 := ⟨f - 1, by omega⟩
            have hnd : noDigitHead (encFields (ind + 2) fs ++
                '\n' :: (ws ind ++ '\x7d' :: t)) = true := noDigitHead_encFields _ _ _
            have hv := IHv v (ind + 2)
              (encFields (ind + 2) fs ++ '\n' :: (ws ind ++ '\x7d' :: t)) hszv hnd
            have hfs := IHf fs (ind + 2) ind t hszf
            have hcongr : parseValue f (' ' :: (encVal (ind + 2) v ++
                (encFields (ind + 2) fs ++ '\n' :: (ws ind ++ '\x7d' :: t))))
                = parseValue f (encVal (ind + 2) v ++
                (encFields (ind + 2) fs ++ '\n' :: (ws ind ++ '\x7d' :: t))) := by
              rw [hg]
              exact parseValue_congr g _ _ (skipWs_space _)
            simp only [encVal, List.cons_append, List.append_assoc, List.nil_append]
            rw [parseValue_lbrace]
            rw [skipWs_nl, skipWs_ws_append]
            simp only [encStr, List.cons_append, List.append_assoc, List.nil_append]
            rw [skipWs_cons_of_not _ (by decide : isWsChar '"' = false)]
            simp only [parseStringBody_enc]
            rw [skipWs_cons_of_not _ (by decide : isWsChar ':' = false)]
            simp only [hcongr, hv, hfs, String_mk_data]
  · intro l ind2 ind0 t hs
    cases l with
    | nil =>
        have hf1 : 1 ≤ f + 1 := by omega
        simp only [encList, List.nil_append]
        have hcongr := parseListRest_congr f
          ('\n' :: (ws ind0 ++ ']' :: t)) (']' :: t)
          (by rw [skipWs_nl, skipWs_ws_append,
                skipWs_cons_of_not _ (by decide : isWsChar ']' = false)])
        rw [hcongr, parseListRest_rbrack]
    | cons h tl =>
        have hszh : sizeJ h ≤ f := by
          simp [sizeL] at hs
          have := sizeL_pos tl
          omega
        have hszl : sizeL tl ≤ f := by
          simp [sizeL] at hs
          have := sizeJ_pos h
          omega
        have hf1 : 1 ≤ f := by
          have := sizeJ_pos h
          have := sizeL_pos tl
          simp [sizeL] at hs
          omega
        obtain ⟨g, hg⟩ : ∃ g, f = g + 1 := ⟨f - 1, by omega⟩
        have hnd : noDigitHead (encList ind2 tl ++
            '\n' :: (ws ind0 ++ ']' :: t)) = true := noDigitHead_encList _ _ _
        have hv := IHv h ind2
          (encList ind2 tl ++ '\n' :: (ws ind0 ++ ']' :: t)) hszh hnd
        have hl := IHl tl ind2 ind0 t hszl
        have hcongr : parseValue f ('\n' :: (ws ind2 ++ (encVal ind2 h ++
            (encList ind2 tl ++ '\n' :: (ws ind0 ++ ']' :: t)))))
            = parseValue f (encVal ind2 h ++
            (encList ind2 tl ++ '\n' :: (ws ind0 ++ ']' :: t))) := by
          rw [hg]
          refine parseValue_congr g _ _ ?_
          rw [skipWs_nl, skipWs_ws_append]
        simp only [encList, List.cons_append, List.append_assoc, List.nil_append]
        rw [parseListRest_comma]
        simp only [hcongr, hv, hl]
  · intro fs ind2 ind0 t hs
    cases fs with
    | nil =>
        simp only [encFields, List.nil_append]
        have hcongr := parseObjRest_congr f
          ('\n' :: (ws ind0 ++ '\x7d' :: t)) ('\x7d' :: t)
          (by rw [skipWs_nl, skipWs_ws_append,
                skipWs_cons_of_not _ (by decide : isWsChar '\x7d' = false)])
        rw [hcongr, parseObjRest_rbrace]
    | cons k v fs =>
        have hszv : sizeJ v ≤ f := by
          simp [sizeF] at hs
          have := sizeF_pos fs
          omega
        have hszf : sizeF fs ≤ f := by
          simp [sizeF] at hs
          have := sizeJ_pos v
          omega
        have hf1 : 1 ≤ f := by
          have := sizeJ_pos v
          have := sizeF_pos fs
          simp [sizeF] at hs
          omega
        obtain ⟨g, hg⟩ : ∃ g, f = g + 1 := ⟨f - 1, by omega⟩
        have hnd : noDigitHead (encFields ind2 fs ++
            '\n' :: (ws ind0 ++ '\x7d' :: t)) = true := noDigitHead_encFields _ _ _
        have hv := IHv v ind2
          (encFields ind2 fs ++ '\n' :: (ws ind0 ++ '\x7d' :: t)) hszv hnd
        have hfs := IHf fs ind2 ind0 t hszf
        have hcongr : parseValue f (' ' :: (encVal ind2 v ++
            (encFields ind2 fs ++ '\n' :: (ws ind0 ++ '\x7d' :: t))))
            = parseValue f (encVal ind2 v ++
            (encFields ind2 fs ++ '\n' :: (ws ind0 ++ '\x7d' :: t))) := by
          rw [hg]
          exact parseValue_congr g _ _ (skipWs_space _)
        simp only [encFields, List.cons_append, List.append_assoc, List.nil_append]
        rw [parseObjRest_comma]
        rw [skipWs_nl, skipWs_ws_append]
        simp only [encStr, List.cons_append, List.append_assoc, List.nil_append]
        rw [skipWs_cons_of_not _ (by decide : isWsChar '"' = false)]
        simp only [parseStringBody_enc]
        rw [skipWs_cons_of_not _ (by decide : isWsChar ':' = false)]
        simp only [hcongr, hv, hfs, String_mk_data]

theorem one_le_encNat_length (m : Nat) : 1 ≤ (encNat m).length := by
  obtain ⟨d, r, hD, _⟩ := encNat_head m
  simp [hD]

theorem one_le_encInt_length (n : Int) : 1 ≤ (encInt n).length := by
  by_cases hn : n < 0 <;> simp [encInt, hn, one_le_encNat_length]

mutual

theorem sizeJ_le_encVal : ∀ (v : Json) (ind : Nat), sizeJ v ≤ (encVal ind v).length
  | .null, _ => by simp [sizeJ, encVal]
  | .bool b, _ => by cases b <;> simp [sizeJ, encVal]
  | .num n, _ => by simpa [sizeJ, encVal] using one_le_encInt_length n
  | .str s, _ => by simp [sizeJ, encVal, encStr]
  | .arr .nil, _ => by simp [sizeJ, sizeL, encVal]
  | .arr (.cons h t), ind => by
      have ih1 := sizeJ_le_encVal h (ind + 2)
      have ih2 := sizeL_le_encList t (ind + 2)
      simp [sizeJ, sizeL, encVal, ws]
      omega
  | .obj .nil, _ => by simp [sizeJ, sizeF, encVal]
  | .obj (.cons k v fs), ind => by
      have ih1 := sizeJ_le_encVal v (ind + 2)
      have ih2 := sizeF_le_encFields fs (ind + 2)
      simp [sizeJ, sizeF, encVal, encStr, ws]
      omega

theorem sizeL_le_encList : ∀ (l : JsonList) (ind : Nat),
    sizeL l ≤ (encList ind l).length + 1
  | .nil, _ => by simp [sizeL, encList]
  | .cons h t, ind => by
      have ih1 := sizeJ_le_encVal h ind
      have ih2 := sizeL_le_encList t ind
      simp [sizeL, encList, ws]
      omega

theorem sizeF_le_encFields : ∀ (fs : JsonFields) (ind : Nat),
    sizeF fs ≤ (encFields ind fs).length + 1
  | .nil, _ => by simp [sizeF, encFields]
  | .cons k v fs, ind => by
      have ih1 := sizeJ_le_encVal v ind
      have ih2 := sizeF_le_encFields fs ind
      simp [sizeF, encFields, encStr, ws]
      omega

end

/-- The codec round trip at the `json.load` level: `decode` is a left
inverse of `encode` on every representable document. -/
theorem parseJson_encodeJson (v : Json) : parseJson (encodeJson v) = .ok v := by
  have hfuel : sizeJ v ≤ (encVal 0 v).length + 1 := by
    have := sizeJ_le_encVal v 0
    omega
  have h := (parse_enc_all ((encVal 0 v).length + 1)).1 v 0 [] hfuel rfl
  rw [List.append_nil] at h
  unfold parseJson encodeJson
  simp [h, skipWs]

/-! ## Behaviour of the lock-retry loop and the storage operations -/

theorem flockRetryAux_none (c : Nat → Bool) (h : ∀ k, c k = true) :
    ∀ (fuel rc : Nat), flockRetryAux c rc fuel = none := by
  intro fuel
  induction fuel with
  | zero => intro rc; rfl
  | succ f ih => intro rc; simp [flockRetryAux, h rc, ih]

theorem flockRetry_none (c : Nat → Bool) (h : ∀ k, c k = true) :
    flockRetry c = none := flockRetryAux_none c h 10 0

theorem flockRetryAux_some_lt (c : Nat → Bool) :
    ∀ (fuel rc k : Nat), flockRetryAux c rc fuel = some k → k < rc + fuel := by
  intro fuel
  induction fuel with
  | zero => intro rc k h; exact absurd h (by simp [flockRetryAux])
  | succ f ih =>
      intro rc k h
      rw [flockRetryAux] at h
      by_cases hc : c rc
      · rw [if_pos hc] at h
        have := ih (rc + 1) k h
        omega
      · rw [if_neg hc] at h
        injection h with h
        omega

theorem flockRetry_some_lt (c : Nat → Bool) (k : Nat) (h : flockRetry c = some k) :
    k < 10 := by
  have := flockRetryAux_some_lt c 10 0 k h
  omega

theorem setLock_docs (s : FS) (n : String) : (setLock s n).docs = s.docs := rfl

theorem setLock_locks_self (s : FS) (n : String) : (setLock s n).locks n = true := by
  simp [setLock]

theorem removeLockFile_docs (s : FS) (n : String) :
    (removeLockFile s n).docs = s.docs := by
  unfold removeLockFile
  split <;> rfl

theorem removeLockFile_locks_self (s : FS) (n : String) :
    (removeLockFile s n).locks n = false := by
  unfold removeLockFile
  split
  · simp
  · rename_i h
    simpa using h

theorem removeLockFile_absent (s : FS) (n : String) (h : s.locks n = false) :
    removeLockFile s n = s := by
  unfold removeLockFile
  simp [h]

theorem removeLockFile_idem (s : FS) (n : String) :
    removeLockFile (removeLockFile s n) n = removeLockFile s n :=
  removeLockFile_absent _ n (removeLockFile_locks_self s n)

theorem loadCurrent_setLock {ε : Type} (s : FS) (n m : String) :
    loadCurrent (ε := ε) (setLock s n) m = loadCurrent s m := rfl

theorem withFileLock_noContention {α ε : Type} (n : String)
    (body : FS → Except (PyErr ε) α × FS) (s : FS) :
    withFileLock noContention n body s =
      ((body (setLock s n)).1, removeLockFile (body (setLock s n)).2 n) := rfl

theorem withFileLock_locks {α ε : Type} (c : Nat → Bool) (n : String)
    (body : FS → Except (PyErr ε) α × FS) (s : FS) :
    (withFileLock c n body s).2.locks n = false := by
  unfold withFileLock
  cases flockRetry c <;> simp [removeLockFile_locks_self]

/-! ## The claims -/

/-- C1: for every document name `n` and transform, an uncontended
`update_json` makes exactly one successful `flock` attempt, loads the
currently persisted mapping (`loadCurrent`, which substitutes the empty
mapping for an absent file), invokes the transform exactly once — the
returned value and final closure state are those of the single application
`update_func st v` — persists the transform's result as the document's full
new content, returns that same result, and leaves the lock sentinel
removed; no other document is touched. -/
theorem C1_update_applies_transform_once {σ ε : Type}
    (s : FS) (n : String) (update_func : σ → Json → Except ε (Json × σ))
    (st : σ) (v updated : Json) (st2 : σ)
    (hload : loadCurrent (ε := ε) s n = .ok v)
    (happ : update_func st v = .ok (updated, st2)) :
    (update_json noContention n update_func st s).1 = .ok (updated, st2) ∧
    (update_json noContention n update_func st s).2.docs n
      = some (encodeJson updated) ∧
    (update_json noContention n update_func st s).2.locks n = false ∧
    (∀ m, m ≠ n → (update_json noContention n update_func st s).2.docs m
      = s.docs m) ∧
    attemptsMade noContention = 1 := by
  have hL : loadCurrent (ε := ε) (setLock s n) n = .ok v := hload
  have hmain : update_json noContention n update_func st s
      = (.ok (updated, st2),
         removeLockFile (setDoc (setLock s n) n (encodeJson updated)) n) := by
    unfold update_json
    rw [withFileLock_noContention]
    simp only [hL, happ]
  rw [hmain]
  refine ⟨rfl, ?_, removeLockFile_locks_self _ _, ?_, rfl⟩
  · rw [removeLockFile_docs]
    simp [setDoc]
  · intro m hm
    rw [removeLockFile_docs]
    simp [setDoc, setLock, hm]

/-- Witness for C1 at a concrete store: updating an absent document with a
counting transform returns the transform's single application and closure
state 1. -/
theorem C1_update_witness :
    (update_json noContention "t.json"
      (fun (k : Nat) (v : Json) => (Except.ok (v, k + 1) : Except Unit (Json × Nat)))
      0 (FS.mk (fun _ => none) (fun _ => false))).1 = .ok (emptyObj, 1) :=
  (C1_update_applies_transform_once (FS.mk (fun _ => none) (fun _ => false)) "t.json"
    (fun (k : Nat) (v : Json) => (Except.ok (v, k + 1) : Except Unit (Json × Nat)))
    0 emptyObj emptyObj 1 rfl rfl).1

/-- C2: on every prior store contents, `write_json n v` succeeds, fully
replaces the document's content with the serialization of `v` (no merge
with the prior content), and a subsequent `read_json n` returns a value
equal to `v`; the codec's decode is a left inverse of encode on every
representable mapping. -/
theorem C2_write_then_read_roundtrip {ε : Type} (s : FS) (n : String) (v : Json) :
    (write_json (ε := ε) noContention n v s).1 = .ok () ∧
    (read_json (ε := ε) noContention n
      ((write_json (ε := ε) noContention n v s).2)).1 = .ok v ∧
    (write_json (ε := ε) noContention n v s).2.docs n = some (encodeJson v) ∧
    parseJson (encodeJson v) = .ok v := by
  have hrt := parseJson_encodeJson v
  have hdoc : (write_json (ε := ε) noContention n v s).2.docs n
      = some (encodeJson v) := by
    unfold write_json
    rw [withFileLock_noContention]
    rw [removeLockFile_docs]
    simp [setDoc]
  refine ⟨rfl, ?_, hdoc, hrt⟩
  unfold read_json
  rw [withFileLock_noContention]
  show loadCurrent (setLock ((write_json (ε := ε) noContention n v s).2) n) n = _
  unfold loadCurrent
  rw [setLock_docs, hdoc]
  simp [hrt]

/-- C3: when the caller-supplied transform raises, `update_json` surfaces
the failure as the transform's exception (the spec's `TransformFailed`),
releases the lock, and persists nothing: every document's content is
exactly as before the call. -/
theorem C3_update_transform_failure_no_write {σ ε : Type}
    (s : FS) (n : String) (update_func : σ → Json → Except ε (Json × σ))
    (st : σ) (v : Json) (e : ε)
    (hload : loadCurrent (ε := ε) s n = .ok v)
    (happ : update_func st v = .error e) :
    (update_json noContention n update_func st s).1 = .error (.transformExc e) ∧
    (update_json noContention n update_func st s).2.docs = s.docs ∧
    (update_json noContention n update_func st s).2.locks n = false := by
  have hL : loadCurrent (ε := ε) (setLock s n) n = .ok v := hload
  have hmain : update_json noContention n update_func st s
      = (.error (.transformExc e), removeLockFile (setLock s n) n) := by
    unfold update_json
    rw [withFileLock_noContention]
    simp only [hL, happ]
  rw [hmain]
  exact ⟨rfl, by rw [removeLockFile_docs]; rfl, removeLockFile_locks_self _ _⟩

/-- Witness for C3 at a concrete store with persisted content: the failing
transform's error comes back wrapped and the document text is untouched. -/
theorem C3_update_failure_witness :
    (update_json noContention "t.json"
      (fun (_ : Unit) (_ : Json) => (Except.error 7 : Except Nat (Json × Unit)))
      () (FS.mk (fun m => if m = "t.json" then some "0" else none)
           (fun _ => false))).1 = .error (.transformExc 7) ∧
    (update_json noContention "t.json"
      (fun (_ : Unit) (_ : Json) => (Except.error 7 : Except Nat (Json × Unit)))
      () (FS.mk (fun m => if m = "t.json" then some "0" else none)
           (fun _ => false))).2.docs "t.json" = some "0" := by
  have h := C3_update_transform_failure_no_write
    (FS.mk (fun m => if m = "t.json" then some "0" else none) (fun _ => false))
    "t.json"
    (fun (_ : Unit) (_ : Json) => (Except.error 7 : Except Nat (Json × Unit)))
    () (Json.num 0) 7 rfl rfl
  exact ⟨h.1, by rw [h.2.1]; rfl⟩

/-- C4 counterexample: on a store whose backing file for `d.json` exists
with EMPTY content, `read_json` raises a JSON decode error instead of
returning the empty mapping — `json.load` of an empty file fails.  Only an
ABSENT file yields the empty mapping. -/
theorem C4_empty_file_counterexample :
    (read_json (ε := Unit) noContention "d.json"
      (FS.mk (fun m => if m = "d.json" then some "" else none)
        (fun _ => false))).1
      = .error (.jsonDecodeError "Expecting value") := rfl

/-- C4 amended: `read_json` of an ABSENT backing file returns the empty
mapping without error; a backing file that exists with empty content
instead raises a decode error. -/
theorem C4_read_absent_amended {ε : Type} (s : FS) (n : String) :
    (s.docs n = none →
      read_json (ε := ε) noContention n s
        = (.ok emptyObj, removeLockFile (setLock s n) n)) ∧
    (s.docs n = some "" →
      (read_json (ε := ε) noContention n s).1
        = .error (.jsonDecodeError "Expecting value")) := by
  constructor
  · intro h
    unfold read_json
    rw [withFileLock_noContention]
    unfold loadCurrent
    rw [setLock_docs, h]
  · intro h
    unfold read_json
    rw [withFileLock_noContention]
    show loadCurrent (ε := ε) (setLock s n) n = _
    unfold loadCurrent
    rw [setLock_docs, h]
    rfl

/-- Witness for C4's amended statement on a fresh store. -/
theorem C4_read_absent_witness :
    read_json (ε := Unit) noContention "missing.json"
        (FS.mk (fun _ => none) (fun _ => false))
      = (.ok emptyObj,
         removeLockFile (setLock (FS.mk (fun _ => none) (fun _ => false))
           "missing.json") "missing.json") :=
  (C4_read_absent_amended (FS.mk (fun _ => none) (fun _ => false))
    "missing.json").1 rfl

/-- C5 counterexample: the decode error raised on unparsable content is one
and the same value for two distinct document names with identical contents,
so it cannot carry the document name; moreover a document holding `[]` —
text that is no JSON object — is returned as a value rather than raising. -/
theorem C5_malformed_counterexample :
    (read_json (ε := Unit) noContention "a.json"
      (FS.mk (fun m => if m = "a.json" then some "x"
          else if m = "b.json" then some "x"
          else if m = "c.json" then some "[]" else none) (fun _ => false))).1
      = .error (.jsonDecodeError "Expecting value") ∧
    (read_json (ε := Unit) noContention "b.json"
      (FS.mk (fun m => if m = "a.json" then some "x"
          else if m = "b.json" then some "x"
          else if m = "c.json" then some "[]" else none) (fun _ => false))).1
      = .error (.jsonDecodeError "Expecting value") ∧
    "a.json" ≠ "b.json" ∧
    (read_json (ε := Unit) noContention "c.json"
      (FS.mk (fun m => if m = "a.json" then some "x"
          else if m = "b.json" then some "x"
          else if m = "c.json" then some "[]" else none) (fun _ => false))).1
      = .ok (Json.arr .nil) := by
  refine ⟨rfl, rfl, ?_, rfl⟩
  decide

/-- C5 amended: on a backing file whose text does not parse as JSON,
`read_json` raises a decode error carrying the parse-failure description
(and only that — the error is a function of the text alone, not of the
document name), never a default value; the lock sentinel is removed. -/
theorem C5_read_malformed_amended {ε : Type} (s : FS) (n : String)
    (text : String) (m : String)
    (h1 : s.docs n = some text) (h2 : parseJson text = .error m) :
    (read_json (ε := ε) noContention n s).1 = .error (.jsonDecodeError m) ∧
    (read_json (ε := ε) noContention n s).2.locks n = false := by
  constructor
  · unfold read_json
    rw [withFileLock_noContention]
    show loadCurrent (ε := ε) (setLock s n) n = _
    unfold loadCurrent
    rw [setLock_docs, h1]
    simp [h2]
  · exact withFileLock_locks _ _ _ _

/-- Witness for C5's amended statement at concrete malformed content. -/
theorem C5_read_malformed_witness :
    (read_json (ε := Unit) noContention "a.json"
      (FS.mk (fun m => if m = "a.json" then some "garbage" else none)
        (fun _ => false))).1 = .error (.jsonDecodeError "Expecting value") :=
  (C5_read_malformed_amended
    (FS.mk (fun m => if m = "a.json" then some "garbage" else none)
      (fun _ => false))
    "a.json" "garbage" "Expecting value" rfl rfl).1

/-- C6 counterexample: the exception raised when the retry loop is
exhausted is the fixed value `IOError("Could not acquire file lock")`,
identical for two distinct document names (and for any contention history),
so it carries neither the document name nor the elapsed time. -/
theorem C6_lock_timeout_counterexample :
    (read_json (ε := Unit) (fun _ => true) "a.json"
      (FS.mk (fun _ => none) (fun _ => false))).1
      = .error (.ioError "Could not acquire file lock") ∧
    (read_json (ε := Unit) (fun _ => true) "b.json"
      (FS.mk (fun _ => none) (fun _ => false))).1
      = .error (.ioError "Could not acquire file lock") ∧
    "a.json" ≠ "b.json" := by
  refine ⟨rfl, rfl, ?_⟩
  decide

/-- C6 amended: when the lock is held elsewhere throughout the retry
window, acquisition fails with the constant `IOError("Could not acquire
file lock")` — carrying neither the document name nor the elapsed time —
the critical-section body never runs, and the caller holds no lock
afterwards: the sentinel has been removed. -/
theorem C6_lock_timeout_amended {α ε : Type} (c : Nat → Bool)
    (hc : ∀ k, c k = true) (n : String)
    (body : FS → Except (PyErr ε) α × FS) (s : FS) :
    withFileLock c n body s
      = (.error (.ioError "Could not acquire file lock"),
         removeLockFile (setLock s n) n) ∧
    (withFileLock c n body s).2.locks n = false := by
  have hr := flockRetry_none c hc
  constructor
  · unfold withFileLock
    rw [hr]
  · exact withFileLock_locks _ _ _ _

/-- Witness for C6's amended statement under total contention. -/
theorem C6_lock_timeout_witness :
    withFileLock (fun _ => true) "t.json"
        (fun s1 => ((Except.ok 5 : Except (PyErr Unit) Nat), s1))
        (FS.mk (fun _ => none) (fun _ => false))
      = (.error (.ioError "Could not acquire file lock"),
         removeLockFile (setLock (FS.mk (fun _ => none) (fun _ => false))
           "t.json") "t.json") :=
  (C6_lock_timeout_amended (fun _ => true) (fun _ => rfl) "t.json"
    (fun s1 => ((Except.ok 5 : Except (PyErr Unit) Nat), s1))
    (FS.mk (fun _ => none) (fun _ => false))).1

/-- C7 counterexample: with the lock held elsewhere throughout, the retry
loop sleeps 100ms after each of its 10 failed attempts, so the whole retry
window spans 1000 milliseconds — not the ten seconds the claim states. -/
theorem C7_retry_window_counterexample :
    totalSleepMs (fun _ => true) = 1000 ∧
    totalSleepMs (fun _ => true) ≠ 10000 := by
  constructor
  · rfl
  · decide

/-- C7 amended: acquisition attempts a non-blocking `flock`; each failed
attempt is followed by a fixed 100ms sleep; at most ten attempts are made
in total, so the loop always terminates after the bounded attempt count
and the retry window spans at most one second (1000ms), not ten. -/
theorem C7_retry_loop_bounded (c : Nat → Bool) :
    attemptsMade c ≤ 10 ∧
    sleepMs = 100 ∧
    totalSleepMs c = sleepMs * failedAttempts c ∧
    totalSleepMs c ≤ 1000 ∧
    (∀ k, flockRetry c = some k → k < 10) := by
  refine ⟨?_, rfl, rfl, ?_, fun k hk => flockRetry_some_lt c k hk⟩
  · unfold attemptsMade
    cases hr : flockRetry c with
    | none => simp
    | some k =>
        have := flockRetry_some_lt c k hr
        simp
        omega
  · unfold totalSleepMs failedAttempts sleepMs
    cases hr : flockRetry c with
    | none => simp
    | some k =>
        have := flockRetry_some_lt c k hr
        simp
        omega

/-- Witness for C7 with a concrete two-failure contention history: the
third attempt succeeds, within the ten-attempt bound. -/
theorem C7_retry_loop_witness :
    attemptsMade (fun k => k < 2) ≤ 10 ∧
    (flockRetry (fun k => k < 2) = some 2 → (2 : Nat) < 10) := by
  have h := C7_retry_loop_bounded (fun k => decide (k < 2))
  exact ⟨h.1, fun _ => h.2.2.2.2 2 rfl⟩

/-- C8: for every operation and every exit path of the sequential model,
the lock sentinel is gone immediately after the operation completes —
`read_json`, `write_json`, `update_json`, and `withFileLock` with an
arbitrary body (so in particular on every error exit of the body); while
the critical section runs the sentinel exists (a body that observes the
sentinel observes `true` whenever the lock was acquired at all); and
release is idempotent — removing an already-absent sentinel changes
nothing and raises nothing. -/
theorem C8_lock_lifecycle {α σ ε : Type} (c : Nat → Bool) (s : FS) (n : String)
    (v : Json) (update_func : σ → Json → Except ε (Json × σ)) (st : σ)
    (body : FS → Except (PyErr ε) α × FS) :
    ((read_json (ε := ε) c n s).2.locks n = false) ∧
    ((write_json (ε := ε) c n v s).2.locks n = false) ∧
    ((update_json c n update_func st s).2.locks n = false) ∧
    ((withFileLock c n body s).2.locks n = false) ∧
    (∀ k, flockRetry c = some k →
      (withFileLock c n
        (fun s1 => ((.ok (s1.locks n) : Except (PyErr ε) Bool), s1)) s).1
        = .ok true) ∧
    (s.locks n = false → removeLockFile s n = s) := by
  refine ⟨withFileLock_locks _ _ _ _, withFileLock_locks _ _ _ _,
    withFileLock_locks _ _ _ _, withFileLock_locks _ _ _ _, ?_,
    removeLockFile_absent s n⟩
  intro k hk
  unfold withFileLock
  rw [hk]
  simp [setLock_locks_self]

/-- Witness for C8 on a fresh store: the sentinel-observing body sees the
sentinel, and releasing with no sentinel present is the identity. -/
theorem C8_lock_lifecycle_witness :
    ((read_json (ε := Unit) noContention "t.json"
        (FS.mk (fun _ => none) (fun _ => false))).2.locks "t.json" = false) ∧
    ((withFileLock noContention "t.json"
        (fun s1 => ((.ok (s1.locks "t.json") : Except (PyErr Unit) Bool), s1))
        (FS.mk (fun _ => none) (fun _ => false))).1 = .ok true) ∧
    (removeLockFile (FS.mk (fun _ => none) (fun _ => false)) "t.json"
      = FS.mk (fun _ => none) (fun _ => false)) := by
  have h := C8_lock_lifecycle (α := Bool) (σ := Nat) (ε := Unit)
    noContention (FS.mk (fun _ => none) (fun _ => false)) "t.json"
    emptyObj (fun k v => .ok (v, k)) 0
    (fun s1 => ((.ok true : Except (PyErr Unit) Bool), s1))
  exact ⟨h.1, h.2.2.2.2.1 0 rfl, h.2.2.2.2.2 rfl⟩

/-- C9: mutual exclusion FAILS in the concurrent model of `_file_lock`.
Under the schedule `[0,0,1,0,2,2,1]` — thread 0 acquires and releases
(unlinking the lock path), thread 1 had already opened the old inode and
then flocks it after 0's release, thread 2 re-creates the path as a fresh
inode and flocks that — threads 1 and 2 are simultaneously inside their
critical sections. -/
theorem C9_concurrent_race :
    (crun [0, 0, 1, 0, 2, 2, 1]).phase 1 = .inCrit 0 ∧
    (crun [0, 0, 1, 0, 2, 2, 1]).phase 2 = .inCrit 1 := by
  exact ⟨rfl, rfl⟩

/-- C10: a lock acquisition that times out while thread 0 holds the lock
still runs its cleanup and unlinks the sentinel: after thread 1's eleventh
step (open plus ten failed `flock` attempts) the timeout has propagated,
thread 0 is still inside its critical section, and the on-disk lock path
no longer exists. -/
theorem C10_timeout_unlinks_sentinel :
    (crun ([0, 0] ++ List.replicate 11 1)).phase 0 = .inCrit 0 ∧
    (crun ([0, 0] ++ List.replicate 11 1)).phase 1 = .timedOut ∧
    (crun ([0, 0] ++ List.replicate 11 1)).pathInode = none := by
  exact ⟨rfl, rfl, rfl⟩

end MosaicStorage
